import Mathlib

set_option maxRecDepth 20000

/-
Shallow embedding of the sysext-cli image metadata resolution pipeline:
  src/src/images-list.c   (discover_images, image_read_metadata,
                           image_json_from_url, image_list_from_url,
                           image_remote_metadata, image_local_metadata)
  src/src/newversion.c    (version_cmp, check_if_newer, get_latest_version)
  src/src/json-common.c   (load_image_entries)
C strings are modelled as NUL-free byte strings, i.e. lists of characters;
strcmp is sign-faithful (-1/0/1 instead of an arbitrary difference, every
use in the source only inspects the sign).
-/

abbrev Str := List Char

/-- C strcmp on NUL-terminated strings, sign-faithful. -/
def strcmp : Str → Str → Int
  | [], [] => 0
  | [], _ :: _ => -1
  | _ :: _, [] => 1
  | a :: as, b :: bs =>
      if a.toNat < b.toNat then -1
      else if b.toNat < a.toNat then 1
      else strcmp as bs

/-- C endswith(str, suffix) from the basics helpers used by the source. -/
def endswith (s suf : Str) : Bool := List.isSuffixOf suf s

/-- struct image_deps (declared in a header outside src/): the release
metadata record of one image.  Field set taken from the dispatch table of
parse_image_entry in src/src/json-common.c and the field accesses in
src/src/newversion.c.  All fields are strings. -/
structure ImageDeps where
  image_name : Str
  sysext_version_id : Str
  sysext_scope : Str
  id : Str
  sysext_level : Str
  version_id : Str
  architecture : Str
deriving DecidableEq

/-- struct image_entry (declared in a header outside src/; fields inferred
from their uses in src/src/images-list.c and src/src/newversion.c):
name, deps (nullable pointer, hence an Option), local, remote, installed,
compatible.  is_local / is_remote model the C fields named local / remote
(Lean reserves the word local). -/
structure ImageEntry where
  name : Str
  deps : Option ImageDeps
  is_local : Bool
  is_remote : Bool
  installed : Bool
  compatible : Bool
deriving DecidableEq

/-- Placeholder record for the undefined behaviour of dereferencing a NULL
deps pointer.  check_if_newer dereferences old->deps and new->deps without a
null check; every entry the resolvers actually feed it carries a non-null
deps (proved for the claims below), so this placeholder is never observed on
resolver-produced inputs. -/
def nullDeps : ImageDeps := ⟨[], [], [], [], [], [], []⟩

/-- Dereference of e->deps as done by check_if_newer. -/
def depsOf (e : ImageEntry) : ImageDeps := e.deps.getD nullDeps

/-- version_cmp from src/src/newversion.c: plain strcmp (the XXX comment in
the source marks this as a placeholder for real version parsing). -/
def version_cmp (s1 s2 : Str) : Int := strcmp s1 s2

/-- The entry allocated by check_if_newer when it installs a new best
candidate: calloc + copy of name, deps (moved), local, installed,
compatible.  The remote field is not copied and stays false (calloc zero). -/
def entry_copy (new : ImageEntry) : ImageEntry :=
  { name := new.name
    deps := new.deps
    is_local := new.is_local
    is_remote := false
    installed := new.installed
    compatible := new.compatible }


/-- Eligibility of a candidate (new) against the installed entry (old):
the condition of the outer if of check_if_newer, verbatim from the source
(streq of the architectures and version_cmp of the versions below zero). -/
def eligible (old new : ImageEntry) : Prop :=
  (depsOf old).architecture = (depsOf new).architecture ∧
    version_cmp (depsOf old).sysext_version_id (depsOf new).sysext_version_id < 0

instance (old new : ImageEntry) : Decidable (eligible old new) := by
  unfold eligible; infer_instance

/-- check_if_newer from src/src/newversion.c.  update is the best-so-far
accumulator (NULL modelled as none); the outer condition is the eligible
predicate above, spelled exactly as in the source. -/
def check_if_newer (old new : ImageEntry) (update : Option ImageEntry) :
    Option ImageEntry :=
  if eligible old new then
    match update with
    | some b =>
        if 0 ≤ version_cmp (depsOf b).sysext_version_id (depsOf new).sysext_version_id then
          some b
        else
          some (entry_copy new)
    | none => some (entry_copy new)
  else update

/-- The scan loops of get_latest_version: fold check_if_newer over a
candidate list starting from a best-so-far accumulator. -/
def scan_candidates (curr : ImageEntry) :
    List ImageEntry → Option ImageEntry → Option ImageEntry
  | [], u => u
  | c :: cs, u => scan_candidates curr cs (check_if_newer curr c u)

/-- The selection core of get_latest_version: scan the remote list first,
then the local list, starting from no best candidate. -/
def select_update (curr : ImageEntry) (remote loc : List ImageEntry) :
    Option ImageEntry :=
  scan_candidates curr loc (scan_candidates curr remote none)


/-- Truncation at the last occurrence of a character: the effect of
p = strrchr(s, c); if (p) *p = 0; on the string s.  A no-op when c does not
occur. -/
def cutAtLast (c : Char) (s : Str) : Str :=
  match s.reverse.dropWhile (fun a => a != c) with
  | [] => s
  | _ :: rest => rest.reverse

/-- The part after the last occurrence of a character: the effect of
p = strrchr(s, c); then using p+1 if p else s.  The whole string when c does
not occur. -/
def afterLast (c : Char) (s : Str) : Str :=
  (s.reverse.takeWhile (fun a => a != c)).reverse

/-- The name normalizer of image_local_metadata / image_remote_metadata
(src/src/images-list.c): strrchr-truncate at the last dot (type suffix),
again at the last dot (architecture), then at the last dash (version). -/
def normalize_name (s : Str) : Str :=
  cutAtLast '-' (cutAtLast '.' (cutAtLast '.' s))

/-- One directory entry as seen by discover_images: its name and, when the
entry is a symbolic link (d_type == DT_LNK) with a readable target, that
target path. -/
structure DirEnt where
  name : Str
  link_target : Option Str
deriving DecidableEq

/-- image_filter from src/src/images-list.c: keep entries whose name ends in
.raw or .img. -/
def image_filter (name : Str) : Bool :=
  endswith name ".raw".data || endswith name ".img".data

/-- The alphasort comparison used by scandir, as a relation on directory
entries: byte-wise string comparison of the names (strcoll in the C locale). -/
def dirle (a b : DirEnt) : Prop := strcmp a.name b.name ≤ 0

instance : DecidableRel dirle := fun a b =>
  inferInstanceAs (Decidable (strcmp a.name b.name ≤ 0))

/-- Name resolution of one scandir entry in discover_images: a symbolic link
contributes the final path component of its target (strrchr(fn, '/')), any
other entry its own name. -/
def resolve_entry (e : DirEnt) : Str :=
  match e.link_target with
  | none => e.name
  | some t => afterLast '/' t

/-- discover_images from src/src/images-list.c: scandir with image_filter
and alphasort, then per-entry symlink resolution. -/
def discover_images (dir : List DirEnt) : List Str :=
  (List.insertionSort dirle (dir.filter (fun e => image_filter e.name))).map
    resolve_entry

/-- Removal of one trailing newline, as done on each getline result in
image_list_from_url. -/
def chomp (l : Str) : Str :=
  match l.getLast? with
  | some c => if c = '\n' then l.dropLast else l
  | none => l

/-- Filename extraction of image_list_from_url: p = strchr(line, ' ') and
then skipping the run of spaces.  strchr returns NULL when the line has no
space and the code dereferences p unconditionally; none models that
null-pointer dereference. -/
def manifest_filename (l : Str) : Option Str :=
  if ' ' ∈ l then
    some ((l.dropWhile (fun a => a != ' ')).dropWhile (fun a => a == ' '))
  else
    none

/-- The line loop of image_list_from_url: chomp each line, keep lines ending
in .raw / .img (the source inlines the same endswith pair that image_filter
names), extract the filename field of each kept line in order.  none
propagates the null-pointer dereference of manifest_filename. -/
def parse_manifest : List Str → Option (List Str)
  | [] => some []
  | line :: rest =>
      if image_filter (chomp line) then
        match manifest_filename (chomp line) with
        | none => none
        | some fn => (parse_manifest rest).map (fun fns => fn :: fns)
      else
        parse_manifest rest

/-- image_list_from_url from src/src/images-list.c, as a function of the
download status of SHA256SUMS and the downloaded lines.  The outer Option is
none on the null-pointer crash; otherwise the pair is the C return value and
the strv written to *result (none when the function failed before writing
it).  mkostemp and fdopen are assumed to succeed. -/
def image_list_from_url (dl : Int) (lines : List Str) :
    Option (Int × Option (List Str)) :=
  if dl < 0 then some (dl, none)
  else (parse_manifest lines).map (fun fns => ((0 : Int), some fns))

/-- A parsed JSON document as far as the loaders inspect it: a whole-document
parse failure of sd_json_parse_file (with its negative errno), a single
object (already mapped to its record by the sd_json_dispatch table of
parse_image_entry, which is driven by the external sd-json collaborator), or
an array of values.  Top-level scalars and dispatch failures of well-typed
objects are outside the model. -/
inductive JVal where
  | malformed (err : Int)
  | obj (d : ImageDeps)
  | arr (elems : List JVal)

/-- The array loop of load_image_entries: objects fill consecutive slots; a
non-object element makes the function return EINVAL (positive 22 in the
source) with the remaining calloc-NULL slots unfilled. -/
def parse_array : List JVal → Int × List (Option ImageDeps)
  | [] => (0, [])
  | .obj d :: rest =>
      let (r, s) := parse_array rest
      (r, some d :: s)
  | _ :: rest => (22, none :: rest.map (fun _ => none))

/-- load_image_entries from src/src/json-common.c.  Result: the C return
value and the record array written to *images (none when the parse failed
before the array was allocated).  A whole-document parse failure returns -r
for r < 0, i.e. a positive value, exactly as the source does. -/
def load_image_entries (doc : JVal) : Int × Option (List (Option ImageDeps)) :=
  match doc with
  | .malformed e => (-e, none)
  | .obj d => (0, some [some d])
  | .arr elems =>
      let (r, slots) := parse_array elems
      (r, some slots)

/-- Modelled from the spec: load_image_json, called by image_json_from_url,
is not under src/; the spec (4.5) describes it as the document-level loader
with the same dispatch table, which is load_image_entries in
src/src/json-common.c. -/
def load_image_json (doc : JVal) : Int × Option (List (Option ImageDeps)) :=
  load_image_entries doc

/-- Outcome of a C function call: an ordinary return (code plus the value
stored through the output parameter, none when it was left unset), or
process termination via exit().  A return runs the scoped
attribute-cleanup handlers of the function; exit() does not. -/
inductive Exit (α : Type) where
  | ret (code : Int) (val : Option α)
  | abort
deriving DecidableEq

/-- Whether the scoped temporary file of a call was removed: cleanup
handlers (unlink_tempfilep) run on every return, and do not run when the
process is terminated by exit(). -/
def tmp_removed {α : Type} : Exit α → Bool
  | .ret _ _ => true
  | .abort => false

/-- image_json_from_url from src/src/images-list.c, as a function of the
download status of the per-image .json file and the parsed document.
Exactly one record: success with that record.  No record (NULL array or NULL
first slot): -ENOENT.  A non-NULL second slot: exit(EXIT_FAILURE).
mkostemp is assumed to succeed. -/
def image_json_from_url (dl : Int) (doc : JVal) : Exit ImageDeps :=
  if dl < 0 then .ret dl none
  else
    let (r, images) := load_image_json doc
    if r < 0 then .ret r none
    else
      match images with
      | none => .ret (-2) none
      | some [] => .ret (-2) none
      | some (none :: _) => .ret (-2) none
      | some (some d :: []) => .ret 0 (some d)
      | some (some d :: none :: _) => .ret 0 (some d)
      | some (some _ :: some _ :: _) => .abort

/-- image_read_metadata from src/src/images-list.c, as a function of the
extract collaborator status and of the release-file parse result.
Modelled from the spec for the load_ext_release collaborator (not under
src/): it yields a record or a (negative) error, so the defensive
if (image) of the source always sees a record on success.  mkostemp is
assumed to succeed. -/
def image_read_metadata (ext : Int) (pr : Except Int ImageDeps) :
    Exit ImageDeps :=
  if ext < 0 then .ret ext none
  else if 0 < ext then .ret (-22) none
  else
    match pr with
    | .error e => .ret e none
    | .ok d => .ret 0 (some d)

/-- The per-image loop of image_local_metadata: normalize the name, read the
metadata, stop at the first failing image returning its (negative) code with
no list.  An image_read_metadata return of a non-negative code without a
record would, as in the source, produce an entry whose deps stays NULL and
continue; with negative collaborator error codes that branch is unreachable. -/
def buildLocal (extO : Str → Int) (parO : Str → Except Int ImageDeps) :
    List Str → Exit (List ImageEntry)
  | [] => .ret 0 (some [])
  | nm :: rest =>
      match image_read_metadata (extO nm) (parO nm) with
      | .abort => .abort
      | .ret r v =>
          if r < 0 then .ret r none
          else
            let entry : ImageEntry :=
              { name := normalize_name nm
                deps := v
                is_local := true
                is_remote := false
                installed := false
                compatible := false }
            match buildLocal extO parO rest with
            | .abort => .abort
            | .ret r2 (some es) => .ret r2 (some (entry :: es))
            | .ret r2 none => .ret r2 none

/-- image_local_metadata from src/src/images-list.c, as a function of the
scandir result (directory listing or negative errno) and of the per-image
extract / parse collaborators.  On scandir failure the source returns -r for
r < 0: a positive value.  With an empty discovery list the output parameter
is never written (none). -/
def image_local_metadata (scanRes : Except Int (List DirEnt))
    (extO : Str → Int) (parO : Str → Except Int ImageDeps) :
    Exit (List ImageEntry) :=
  match scanRes with
  | .error e => .ret (-e) none
  | .ok dir =>
      let l := discover_images dir
      if l.isEmpty then .ret 0 none
      else buildLocal extO parO l

/-- The per-image loop of image_remote_metadata: normalize the name, fetch
the per-image JSON; a failing image_json_from_url makes the source return -r
for r < 0, i.e. a positive value, with no list; exit() propagates. -/
def buildRemote (dlO : Str → Int) (docO : Str → JVal) :
    List Str → Exit (List ImageEntry)
  | [] => .ret 0 (some [])
  | nm :: rest =>
      match image_json_from_url (dlO nm) (docO nm) with
      | .abort => .abort
      | .ret r v =>
          if r < 0 then .ret (-r) none
          else
            let entry : ImageEntry :=
              { name := normalize_name nm
                deps := v
                is_local := false
                is_remote := true
                installed := false
                compatible := false }
            match buildRemote dlO docO rest with
            | .abort => .abort
            | .ret r2 (some es) => .ret r2 (some (entry :: es))
            | .ret r2 none => .ret r2 none

/-- image_remote_metadata from src/src/images-list.c, as a function of the
SHA256SUMS download status and lines and of the per-image download / JSON
collaborators.  The outer Option is none on the null-pointer crash of
image_list_from_url.  On a failed image_list_from_url the source returns -r
for r < 0: a positive value.  With an empty image list the output parameter
is never written (none). -/
def image_remote_metadata (dl : Int) (lines : List Str)
    (dlO : Str → Int) (docO : Str → JVal) : Option (Exit (List ImageEntry)) :=
  match image_list_from_url dl lines with
  | none => none
  | some (r, out) =>
      if r < 0 then some (.ret (-r) none)
      else
        let names := out.getD []
        if names.isEmpty then some (.ret 0 none)
        else some (buildRemote dlO docO names)

/-- get_latest_version from src/src/newversion.c, as a function of the
installed entry, whether a URL was given, the remote collaborator inputs and
the local collaborator inputs.  The outer Option is none on the null-pointer
crash inside the remote path.  The first loop scans the remote entries, the
second the local entries; a status checked negative aborts with that status;
the winning candidate (if any) is stored through *new, here the val of the
final return. -/
def get_latest_version (curr : ImageEntry) (url : Bool)
    (dl : Int) (lines : List Str) (dlO : Str → Int) (docO : Str → JVal)
    (scanRes : Except Int (List DirEnt))
    (extO : Str → Int) (parO : Str → Except Int ImageDeps) :
    Option (Exit ImageEntry) :=
  let rres := if url then image_remote_metadata dl lines dlO docO
              else some (.ret 0 none)
  match rres with
  | none => none
  | some .abort => some .abort
  | some (.ret r v) =>
      if r < 0 then some (.ret r none)
      else
        let u1 := scan_candidates curr (v.getD []) none
        match image_local_metadata scanRes extO parO with
        | .abort => some .abort
        | .ret rl vl =>
            if rl < 0 then some (.ret rl none)
            else some (.ret 0 (scan_candidates curr (vl.getD []) u1))

/-- Sample release metadata record used by the concrete evaluations below. -/
def sampleDeps (ver : String) : ImageDeps :=
  { image_name := "debug-tools".data
    sysext_version_id := ver.data
    sysext_scope := "system".data
    id := "opensuse".data
    sysext_level := "1".data
    version_id := "1".data
    architecture := "x86-64".data }

/-- Sample image entry with the given sysext_version_id. -/
def sampleEntry (ver : String) : ImageEntry :=
  { name := "debug-tools".data
    deps := some (sampleDeps ver)
    is_local := true
    is_remote := false
    installed := false
    compatible := false }

/-- Local store holding two versions of the sample image. -/
def sampleDir : List DirEnt :=
  [⟨"debug-tools-10.x86-64.raw".data, none⟩,
   ⟨"debug-tools-2.x86-64.raw".data, none⟩]

/-- Release-file parse collaborator for sampleDir. -/
def sampleParse (nm : Str) : Except Int ImageDeps :=
  if nm = "debug-tools-10.x86-64.raw".data then .ok (sampleDeps "10")
  else .ok (sampleDeps "2")

/-- Example directory for discover_images: two plain images, a text file,
and a symbolic link into the store. -/
def exampleDir : List DirEnt :=
  [⟨"b.raw".data, none⟩,
   ⟨"a.img".data, none⟩,
   ⟨"c.txt".data, none⟩,
   ⟨"z.raw".data, some "/store/real-1.0.x86_64.raw".data⟩]

/-- Example SHA256SUMS manifest: an image line, a non-image line, and an
image line with a three-space separator. -/
def exampleManifest : List Str :=
  ["deadbeef  foo-1.0.x86_64.raw\n".data,
   "cafe  notes.txt\n".data,
   "beef   bar.img".data]

/- ------------------------------------------------------------------ -/
/- Helper lemmas.                                                     -/
/- ------------------------------------------------------------------ -/

theorem strcmp_swap : ∀ x y : Str, strcmp y x = -strcmp x y := by
  intro x
  induction x with
  | nil => intro y; cases y <;> simp [strcmp]
  | cons a as ih =>
    intro y
    cases y with
    | nil => simp [strcmp]
    | cons b bs =>
      simp only [strcmp]
      by_cases h1 : a.toNat < b.toNat
      · have h2 : ¬ b.toNat < a.toNat := by omega
        simp [h1, h2]
      · by_cases h2 : b.toNat < a.toNat
        · simp [h1, h2]
        · simp [h1, h2, ih bs]

theorem strcmp_le_trans :
    ∀ x y z : Str, strcmp x y ≤ 0 → strcmp y z ≤ 0 → strcmp x z ≤ 0 := by
  intro x
  induction x with
  | nil => intro y z _ _; cases z <;> simp [strcmp]
  | cons a as ih =>
    intro y z hxy hyz
    cases y with
    | nil => simp [strcmp] at hxy
    | cons b bs =>
      cases z with
      | nil => simp [strcmp] at hyz
      | cons c cs =>
        simp only [strcmp] at hxy hyz ⊢
        by_cases h1 : a.toNat < b.toNat
        · by_cases h2 : b.toNat < c.toNat
          · simp [show a.toNat < c.toNat by omega]
          · by_cases h3 : c.toNat < b.toNat
            · simp [h2, h3] at hyz
            · simp [show a.toNat < c.toNat by omega]
        · by_cases h4 : b.toNat < a.toNat
          · simp [h1, h4] at hxy
          · by_cases h2 : b.toNat < c.toNat
            · simp [show a.toNat < c.toNat by omega]
            · by_cases h3 : c.toNat < b.toNat
              · simp [h2, h3] at hyz
              · have hac1 : ¬ a.toNat < c.toNat := by omega
                have hac2 : ¬ c.toNat < a.toNat := by omega
                simp only [h1, h4, if_false, if_neg h1, if_neg h4] at hxy
                simp only [if_neg h2, if_neg h3] at hyz
                simp only [if_neg hac1, if_neg hac2]
                exact ih bs cs hxy hyz

instance : IsTotal DirEnt dirle :=
  ⟨fun a b => by
    unfold dirle
    rcases le_or_lt (strcmp a.name b.name) 0 with h | h
    · exact Or.inl h
    · right; rw [strcmp_swap]; omega⟩

instance : IsTrans DirEnt dirle :=
  ⟨fun _ _ _ hab hbc => strcmp_le_trans _ _ _ hab hbc⟩

theorem check_if_newer_eq_or (curr c : ImageEntry) (u : Option ImageEntry) :
    check_if_newer curr c u = u ∨
      (eligible curr c ∧ check_if_newer curr c u = some (entry_copy c)) := by
  unfold check_if_newer
  by_cases h : eligible curr c
  · rw [if_pos h]
    cases u with
    | none => exact Or.inr ⟨h, rfl⟩
    | some b =>
        by_cases hb :
            0 ≤ version_cmp (depsOf b).sysext_version_id (depsOf c).sysext_version_id
        · left; simp [hb]
        · right; exact ⟨h, by simp [hb]⟩
  · rw [if_neg h]; exact Or.inl rfl

theorem check_if_newer_not_eligible (curr c : ImageEntry)
    (u : Option ImageEntry) (h : ¬ eligible curr c) :
    check_if_newer curr c u = u := by
  unfold check_if_newer; rw [if_neg h]

theorem scan_candidates_some (curr : ImageEntry) :
    ∀ (l : List ImageEntry) (u0 : Option ImageEntry) (u : ImageEntry),
      scan_candidates curr l u0 = some u →
      u0 = some u ∨ ∃ c ∈ l, eligible curr c ∧ u = entry_copy c := by
  intro l
  induction l with
  | nil => intro u0 u h; exact Or.inl h
  | cons c cs ih =>
    intro u0 u h
    rw [scan_candidates] at h
    rcases ih (check_if_newer curr c u0) u h with h1 | ⟨c', hc', he, hu⟩
    · rcases check_if_newer_eq_or curr c u0 with h2 | ⟨he, h2⟩
      · exact Or.inl (h2 ▸ h1)
      · right
        refine ⟨c, List.mem_cons_self c cs, he, ?_⟩
        rw [h2] at h1
        exact (Option.some.inj h1).symm
    · exact Or.inr ⟨c', List.mem_cons_of_mem c hc', he, hu⟩

theorem scan_candidates_none (curr : ImageEntry) :
    ∀ l : List ImageEntry, (∀ c ∈ l, ¬ eligible curr c) →
      scan_candidates curr l none = none := by
  intro l
  induction l with
  | nil => intro _; rfl
  | cons c cs ih =>
    intro h
    rw [scan_candidates,
        check_if_newer_not_eligible curr c none (h c (List.mem_cons_self c cs))]
    exact ih (fun d hd => h d (List.mem_cons_of_mem c hd))

/-- C1: for every installed entry and every pair of candidate lists (remote
scanned first, then local), the update selection of get_latest_version
produces a candidate only if it is a member of the scanned lists whose
architecture string equals the installed entry's and whose
sysext_version_id is strictly greater under version_cmp; a later-seen
candidate replaces the current best only if strictly newer than it (a tie
keeps the earlier-seen best); if no candidate qualifies, none is returned;
and get_latest_version with successfully fetched metadata lists returns
exactly this selection. -/
theorem get_latest_version_selection (curr : ImageEntry)
    (remote loc : List ImageEntry) :
    (∀ u, select_update curr remote loc = some u →
        ∃ c, c ∈ remote ++ loc ∧ eligible curr c ∧ u = entry_copy c) ∧
    ((∀ c ∈ remote ++ loc, ¬ eligible curr c) →
        select_update curr remote loc = none) ∧
    (∀ c b, eligible curr c →
        version_cmp (depsOf b).sysext_version_id (depsOf c).sysext_version_id < 0 →
        check_if_newer curr c (some b) = some (entry_copy c)) ∧
    (∀ c b, 0 ≤ version_cmp (depsOf b).sysext_version_id (depsOf c).sysext_version_id →
        check_if_newer curr c (some b) = some b) ∧
    (∀ c, eligible curr c → check_if_newer curr c none = some (entry_copy c)) ∧
    (∀ c u, ¬ eligible curr c → check_if_newer curr c u = u) ∧
    (∀ (dl : Int) (lines : List Str) (dlO : Str → Int) (docO : Str → JVal)
        (scanRes : Except Int (List DirEnt)) (extO : Str → Int)
        (parO : Str → Except Int ImageDeps),
        image_remote_metadata dl lines dlO docO = some (.ret 0 (some remote)) →
        image_local_metadata scanRes extO parO = .ret 0 (some loc) →
        get_latest_version curr true dl lines dlO docO scanRes extO parO =
          some (.ret 0 (select_update curr remote loc))) := by
  refine ⟨?_, ?_, ?_, ?_, ?_, ?_, ?_⟩
  · intro u h
    unfold select_update at h
    rcases scan_candidates_some curr loc _ u h with h1 | ⟨c, hc, he, hu⟩
    · rcases scan_candidates_some curr remote none u h1 with h2 | ⟨c, hc, he, hu⟩
      · cases h2
      · exact ⟨c, List.mem_append_left _ hc, he, hu⟩
    · exact ⟨c, List.mem_append_right _ hc, he, hu⟩
  · intro h
    unfold select_update
    rw [scan_candidates_none curr remote
        (fun c hc => h c (List.mem_append_left _ hc))]
    exact scan_candidates_none curr loc
        (fun c hc => h c (List.mem_append_right _ hc))
  · intro c b he hb
    unfold check_if_newer
    rw [if_pos he]
    simp [show ¬ 0 ≤ version_cmp (depsOf b).sysext_version_id
        (depsOf c).sysext_version_id by omega]
  · intro c b hb
    unfold check_if_newer
    by_cases he : eligible curr c
    · rw [if_pos he]; simp [hb]
    · rw [if_neg he]
  · intro c he
    unfold check_if_newer
    rw [if_pos he]
  · intro c u he
    exact check_if_newer_not_eligible curr c u he
  · intro dl lines dlO docO scanRes extO parO h1 h2
    unfold get_latest_version
    rw [if_pos rfl, h1]
    simp only [show ¬ (0 : Int) < 0 by omega, if_false]
    rw [h2]
    simp only [show ¬ (0 : Int) < 0 by omega, if_false]
    rfl

/-- Witness for get_latest_version_selection at a concrete input: installed
version 1, one same-architecture remote candidate of version 2, which the
scan selects. -/
theorem get_latest_version_selection_witness :
    ∃ c, c ∈ [sampleEntry "2"] ++ [] ∧ eligible (sampleEntry "1") c ∧
      entry_copy (sampleEntry "2") = entry_copy c :=
  (get_latest_version_selection (sampleEntry "1") [sampleEntry "2"] []).1
    (entry_copy (sampleEntry "2")) (by decide)

/-- C2 counterexample: with installed sysext_version_id 9 and two
same-architecture candidates of versions 10 and 2, the selection under the
lexicographic comparator does not pick the version-2 candidate: it picks
nothing, because strcmp rates both 10 and 2 below 9. -/
theorem lexicographic_nine_counterexample :
    select_update (sampleEntry "9") [] [sampleEntry "10", sampleEntry "2"] ≠
      some (entry_copy (sampleEntry "2")) ∧
    select_update (sampleEntry "9") [] [sampleEntry "10", sampleEntry "2"] =
      none :=
  ⟨by decide, by decide⟩

/-- C2 amended: with installed version 9 and same-architecture candidates 10
and 2, the lexicographic comparator rates both candidates strictly below 9
(strcmp("9", "10") > 0 and strcmp("9", "2") > 0), so get_latest_version
selects neither candidate and returns success with no update, both at the
selection core and through the full call with the two candidates in the
local store. -/
theorem lexicographic_nine_no_update :
    0 < version_cmp "9".data "10".data ∧
    0 < version_cmp "9".data "2".data ∧
    select_update (sampleEntry "9") [] [sampleEntry "10", sampleEntry "2"] =
      none ∧
    get_latest_version (sampleEntry "9") false 0 [] (fun _ => 0)
        (fun _ => JVal.arr []) (.ok sampleDir) (fun _ => 0) sampleParse =
      some (.ret 0 none) :=
  ⟨by decide, by decide, by decide, by decide⟩

theorem dropWhile_append_of_forall {α : Type} (p : α → Bool) :
    ∀ l1 l2 : List α, (∀ a ∈ l1, p a = true) →
      List.dropWhile p (l1 ++ l2) = List.dropWhile p l2 := by
  intro l1
  induction l1 with
  | nil => intro l2 _; rfl
  | cons a as ih =>
    intro l2 h
    rw [List.cons_append, List.dropWhile_cons,
        if_pos (h a (List.mem_cons_self a as))]
    exact ih l2 (fun b hb => h b (List.mem_cons_of_mem a hb))

theorem cutAtLast_append (c : Char) (x y : Str) (hy : c ∉ y) :
    cutAtLast c (x ++ c :: y) = x := by
  unfold cutAtLast
  have h1 : (x ++ c :: y).reverse = y.reverse ++ c :: x.reverse := by
    simp
  have hall : ∀ a ∈ y.reverse, (a != c) = true := by
    intro a ha
    simp only [bne_iff_ne, ne_eq]
    intro hac
    exact hy (hac ▸ List.mem_reverse.mp ha)
  rw [h1, dropWhile_append_of_forall _ _ _ hall, List.dropWhile_cons,
      if_neg (by simp)]
  simp

/-- C6 counterexample: the filename b-1-2.x.raw has the form
base-version.arch.raw with base b (no dash, no dot), version 1-2 and arch x,
yet the normalizer yields b-1, not b. -/
theorem normalize_dashed_version_counterexample :
    normalize_name "b-1-2.x.raw".data = "b-1".data ∧
    "b-1".data ≠ "b".data ∧
    "b-1-2.x.raw".data =
      "b".data ++ '-' :: ("1-2".data ++ '.' :: ("x".data ++ '.' :: "raw".data)) ∧
    '-' ∉ "b".data ∧ '.' ∉ "b".data := by
  decide

/-- C6 amended: the normalizer strips the last dot-delimited segment, then
the last dot-delimited segment again, then the last dash-delimited segment,
each strip a no-op when its separator is absent; for every filename of the
form base-version.arch.raw in which the version contains no dash and the
arch contains no dot the result is exactly base (the original claim's
constraint on base alone is not enough, see the counterexample); and
normalizing noversion.raw yields noversion. -/
theorem normalize_name_spec :
    (∀ s : Str, normalize_name s =
        cutAtLast '-' (cutAtLast '.' (cutAtLast '.' s))) ∧
    (∀ base ver arch : Str, '-' ∉ ver → '.' ∉ arch →
        normalize_name
            (base ++ '-' :: (ver ++ '.' :: (arch ++ '.' :: "raw".data))) =
          base) ∧
    normalize_name "noversion.raw".data = "noversion".data := by
  refine ⟨fun s => rfl, ?_, by decide⟩
  intro base ver arch hv ha
  unfold normalize_name
  have e1 : base ++ '-' :: (ver ++ '.' :: (arch ++ '.' :: "raw".data)) =
      (base ++ '-' :: (ver ++ '.' :: arch)) ++ '.' :: "raw".data := by
    simp
  have e2 : base ++ '-' :: (ver ++ '.' :: arch) =
      (base ++ '-' :: ver) ++ '.' :: arch := by
    simp
  rw [e1, cutAtLast_append _ _ _ (by decide), e2,
      cutAtLast_append _ _ _ ha, cutAtLast_append _ _ _ hv]

/-- Witness for normalize_name_spec at the conventional sample filename
debug-tools-23.7.x86-64.raw (dotted version, dashed architecture). -/
theorem normalize_name_spec_witness :
    normalize_name ("debug-tools".data ++ '-' ::
        ("23.7".data ++ '.' :: ("x86-64".data ++ '.' :: "raw".data))) =
      "debug-tools".data :=
  normalize_name_spec.2.1 "debug-tools".data "23.7".data "x86-64".data
    (by decide) (by decide)

/-- C7: discover_images returns exactly the directory entries whose names
end in .raw or .img, ordered ascending alphabetically (alphasort on the
entry names), each symbolic link contributing the final path component of
its link target in place of its own name; other suffixes are excluded, and
an empty directory yields an empty result.  The concrete directory
(b.raw, a.img, c.txt, z.raw -> /store/real-1.0.x86_64.raw) illustrates
every clause. -/
theorem discover_images_spec (dir : List DirEnt) :
    (∃ l : List DirEnt,
        l.Perm (dir.filter (fun e => image_filter e.name)) ∧
        List.Sorted dirle l ∧
        discover_images dir = l.map resolve_entry) ∧
    (∀ s ∈ discover_images dir,
        ∃ e ∈ dir, image_filter e.name = true ∧ s = resolve_entry e) ∧
    discover_images ([] : List DirEnt) = [] ∧
    discover_images exampleDir =
      ["a.img".data, "b.raw".data, "real-1.0.x86_64.raw".data] := by
  refine ⟨⟨List.insertionSort dirle (dir.filter (fun e => image_filter e.name)),
      List.perm_insertionSort _ _, List.sorted_insertionSort _ _, rfl⟩,
      ?_, by decide, by decide⟩
  intro s hs
  unfold discover_images at hs
  rcases List.mem_map.mp hs with ⟨e, he, hres⟩
  have he2 : e ∈ dir.filter (fun e => image_filter e.name) :=
    (List.perm_insertionSort dirle _).mem_iff.mp he
  rcases List.mem_filter.mp he2 with ⟨hmem, hf⟩
  exact ⟨e, hmem, hf, hres.symm⟩

/-- Witness for discover_images_spec: the symlink entry of the example
directory resolves to the basename of its target. -/
theorem discover_images_spec_witness :
    ∃ e ∈ exampleDir, image_filter e.name = true ∧
      "real-1.0.x86_64.raw".data = resolve_entry e :=
  (discover_images_spec exampleDir).2.1 "real-1.0.x86_64.raw".data (by decide)

theorem parse_manifest_eq :
    ∀ lines : List Str,
      (∀ line ∈ lines, image_filter (chomp line) = true → ' ' ∈ chomp line) →
      parse_manifest lines =
        some (((lines.map chomp).filter image_filter).map
          (fun l => (l.dropWhile (fun a => a != ' ')).dropWhile
            (fun a => a == ' '))) := by
  intro lines
  induction lines with
  | nil => intro _; rfl
  | cons line rest ih =>
    intro h
    have hrest := fun l hl => h l (List.mem_cons_of_mem _ hl)
    rw [parse_manifest]
    by_cases hf : image_filter (chomp line) = true
    · have hsp : ' ' ∈ chomp line := h line (List.mem_cons_self _ _) hf
      have hmf : manifest_filename (chomp line) =
          some (((chomp line).dropWhile (fun a => a != ' ')).dropWhile
            (fun a => a == ' ')) := by
        unfold manifest_filename; rw [if_pos hsp]
      rw [if_pos hf, hmf, ih hrest]
      simp [List.filter_cons, hf]
    · rw [if_neg hf, ih hrest]
      simp [List.filter_cons, hf]

/-- C8: for every downloaded manifest in which each image line contains a
space (the format's hash-filename separator), the reader produces, in line
order, exactly the filename fields of the lines ending in .raw or .img,
the filename being the line with the leading hash token and the entire
following run of spaces removed; other lines are skipped.  The same holds
through image_list_from_url with a successful download. -/
theorem manifest_reader_spec (lines : List Str)
    (h : ∀ line ∈ lines, image_filter (chomp line) = true → ' ' ∈ chomp line) :
    parse_manifest lines =
      some (((lines.map chomp).filter image_filter).map
        (fun l => (l.dropWhile (fun a => a != ' ')).dropWhile
          (fun a => a == ' '))) ∧
    image_list_from_url 0 lines =
      some (0, some (((lines.map chomp).filter image_filter).map
        (fun l => (l.dropWhile (fun a => a != ' ')).dropWhile
          (fun a => a == ' ')))) := by
  have h1 := parse_manifest_eq lines h
  refine ⟨h1, ?_⟩
  unfold image_list_from_url
  rw [if_neg (by omega), h1]
  rfl

/-- Witness for manifest_reader_spec on the example manifest: the image
lines yield their filename fields (multiple separator spaces all skipped),
the .txt line is skipped. -/
theorem manifest_reader_spec_witness :
    parse_manifest exampleManifest =
      some ["foo-1.0.x86_64.raw".data, "bar.img".data] ∧
    image_list_from_url 0 exampleManifest =
      some (0, some ["foo-1.0.x86_64.raw".data, "bar.img".data]) := by
  rcases manifest_reader_spec exampleManifest (by decide) with ⟨h1, h2⟩
  exact ⟨by rw [h1]; rfl, by rw [h2]; rfl⟩

/-- C9: the filename extraction of the remote index reader dereferences the
result of strchr(line, ' ') without a null check, so it is total only under
the precondition that every image line contains a space: an image line
without a space reaches the null dereference (modelled as none) and crashes
the whole read; a line with a space always yields a well-defined suffix of
the line; under the precondition the reader returns a result. -/
theorem manifest_space_precondition :
    (∀ l : Str, manifest_filename l = none ↔ ' ' ∉ l) ∧
    (∀ l : Str, ' ' ∈ l → ∃ fn, manifest_filename l = some fn ∧ fn <:+ l) ∧
    (∀ line rest, image_filter (chomp line) = true → ' ' ∉ chomp line →
        parse_manifest (line :: rest) = none) ∧
    (∀ lines : List Str,
        (∀ line ∈ lines, image_filter (chomp line) = true → ' ' ∈ chomp line) →
        ∃ fns, parse_manifest lines = some fns) := by
  refine ⟨?_, ?_, ?_, ?_⟩
  · intro l
    unfold manifest_filename
    by_cases h : ' ' ∈ l <;> simp [h]
  · intro l h
    refine ⟨_, by unfold manifest_filename; rw [if_pos h], ?_⟩
    exact (List.dropWhile_suffix _).trans (List.dropWhile_suffix _)
  · intro line rest hf hsp
    rw [parse_manifest, if_pos hf]
    have hmf : manifest_filename (chomp line) = none := by
      unfold manifest_filename; rw [if_neg hsp]
    rw [hmf]
  · intro lines h
    exact ⟨_, parse_manifest_eq lines h⟩

/-- Witness for manifest_space_precondition: a bare image filename line
crashes the reader; a well-formed line yields a suffix. -/
theorem manifest_space_precondition_witness :
    parse_manifest ["nospace.raw".data] = none ∧
    ∃ fn, manifest_filename "deadbeef  foo.raw".data = some fn ∧
      fn <:+ "deadbeef  foo.raw".data := by
  constructor
  · exact manifest_space_precondition.2.2.1 "nospace.raw".data []
      (by decide) (by decide)
  · exact manifest_space_precondition.2.1 "deadbeef  foo.raw".data (by decide)

/-- C3: evaluation of image_json_from_url at the three document shapes.  A
document yielding exactly one record (single object, or one-object array)
returns that record with status 0; a document yielding zero records fails
with -ENOENT; but a document yielding two or more records terminates the
process via exit(EXIT_FAILURE) (the source prints "More than one entry
found, not implemented yet!"), it does not fail with a recoverable error as
the claim requires. -/
theorem json_loader_cardinality :
    image_json_from_url 0 (.obj (sampleDeps "1")) =
      .ret 0 (some (sampleDeps "1")) ∧
    image_json_from_url 0 (.arr [.obj (sampleDeps "1")]) =
      .ret 0 (some (sampleDeps "1")) ∧
    image_json_from_url 0 (.arr []) = .ret (-2) none ∧
    image_json_from_url 0 (.arr [.obj (sampleDeps "1"), .obj (sampleDeps "2")]) =
      .abort :=
  ⟨by decide, by decide, by decide, by decide⟩

/-- C4: failures are not always surfaced in a form the caller's error check
observes.  image_list_from_url fails with -5 (download error); its caller
image_remote_metadata returns -r for r < 0, i.e. the positive status 5;
get_latest_version checks r < 0, misses the positive status and finishes
with status 0 (success, no update) although the underlying download failed.
The same sign flip exists on the local path: a scandir failure -13 makes
image_local_metadata return +13, which get_latest_version also treats as
success. -/
theorem error_sign_flip_swallows_failure :
    image_list_from_url (-5) [] = some (-5, none) ∧
    image_remote_metadata (-5) [] (fun _ => 0) (fun _ => JVal.arr []) =
      some (.ret 5 none) ∧
    get_latest_version (sampleEntry "9") true (-5) [] (fun _ => 0)
        (fun _ => JVal.arr []) (.ok []) (fun _ => 0)
        (fun _ => .ok (sampleDeps "1")) = some (.ret 0 none) ∧
    image_local_metadata (.error (-13)) (fun _ => 0)
        (fun _ => .ok (sampleDeps "1")) = .ret 13 none ∧
    get_latest_version (sampleEntry "9") false 0 [] (fun _ => 0)
        (fun _ => JVal.arr []) (.error (-13)) (fun _ => 0)
        (fun _ => .ok (sampleDeps "1")) = some (.ret 0 none) :=
  ⟨by decide, by decide, by decide, by decide, by decide⟩

/-- C10 counterexample: the temporary file of image_json_from_url is not
removed on the more-than-one-entry path, because that path leaves the
function through exit(EXIT_FAILURE), which does not run the scoped cleanup
handler. -/
theorem tmpfile_abort_counterexample :
    tmp_removed (image_json_from_url 0
        (.arr [.obj (sampleDeps "3"), .obj (sampleDeps "4")])) = false := by
  decide

/-- C10 amended: the temporary file is removed on every return path,
including every error return: image_read_metadata has no abort path at all,
and image_json_from_url removes it on every outcome that is not the exit()
of the multi-record path; that abort is the only uncovered exit and is
reached only when the download succeeded and the loader delivered at least
two records. -/
theorem tmpfile_cleanup_on_return :
    (∀ (ext : Int) (pr : Except Int ImageDeps),
        ∃ c v, image_read_metadata ext pr = .ret c v) ∧
    (∀ (ext : Int) (pr : Except Int ImageDeps),
        tmp_removed (image_read_metadata ext pr) = true) ∧
    (∀ (dl : Int) (doc : JVal), image_json_from_url dl doc ≠ .abort →
        tmp_removed (image_json_from_url dl doc) = true) ∧
    (∀ (dl : Int) (doc : JVal), image_json_from_url dl doc = .abort →
        0 ≤ dl ∧ ∃ d1 d2 tl,
          (load_image_json doc).2 = some (some d1 :: some d2 :: tl)) := by
  have hret : ∀ (ext : Int) (pr : Except Int ImageDeps),
      ∃ c v, image_read_metadata ext pr = .ret c v := by
    intro ext pr
    unfold image_read_metadata
    by_cases h1 : ext < 0
    · rw [if_pos h1]; exact ⟨_, _, rfl⟩
    · rw [if_neg h1]
      by_cases h2 : 0 < ext
      · rw [if_pos h2]; exact ⟨_, _, rfl⟩
      · rw [if_neg h2]
        cases pr with
        | error e => exact ⟨_, _, rfl⟩
        | ok d => exact ⟨_, _, rfl⟩
  refine ⟨hret, ?_, ?_, ?_⟩
  · intro ext pr
    rcases hret ext pr with ⟨c, v, h⟩
    rw [h]; rfl
  · intro dl doc hne
    cases h : image_json_from_url dl doc with
    | ret c v => rfl
    | abort => exact absurd h hne
  · intro dl doc h
    unfold image_json_from_url at h
    by_cases hdl : dl < 0
    · rw [if_pos hdl] at h; cases h
    · refine ⟨by omega, ?_⟩
      rw [if_neg hdl] at h
      rcases hl : load_image_json doc with ⟨r, images⟩
      rw [hl] at h
      simp only at h
      by_cases hr : r < 0
      · rw [if_pos hr] at h; cases h
      · rw [if_neg hr] at h
        cases images with
        | none => cases h
        | some slots =>
          cases slots with
          | nil => cases h
          | cons s0 tl0 =>
            cases s0 with
            | none => cases h
            | some d1 =>
              cases tl0 with
              | nil => cases h
              | cons s1 tl1 =>
                cases s1 with
                | none => cases h
                | some d2 => exact ⟨d1, d2, tl1, rfl⟩

/-- Witness for tmpfile_cleanup_on_return: the temporary file is removed on
an extraction-error return and on the zero-record error return, and the
two-record abort is characterized by its loader output. -/
theorem tmpfile_cleanup_on_return_witness :
    tmp_removed (image_read_metadata (-5) (.ok (sampleDeps "1"))) = true ∧
    tmp_removed (image_json_from_url 0 (.arr [])) = true ∧
    (0 ≤ (0 : Int) ∧ ∃ d1 d2 tl,
      (load_image_json
          (.arr [.obj (sampleDeps "3"), .obj (sampleDeps "4")])).2 =
        some (some d1 :: some d2 :: tl)) :=
  ⟨tmpfile_cleanup_on_return.2.1 (-5) (.ok (sampleDeps "1")),
   tmpfile_cleanup_on_return.2.2.1 0 (.arr []) (by decide),
   tmpfile_cleanup_on_return.2.2.2 0
     (.arr [.obj (sampleDeps "3"), .obj (sampleDeps "4")]) (by decide)⟩

theorem image_read_metadata_cases (ext : Int) (pr : Except Int ImageDeps)
    (hpr : ∀ e, pr = .error e → e < 0) :
    (∃ c, image_read_metadata ext pr = .ret c none ∧ c < 0) ∨
    (∃ d, image_read_metadata ext pr = .ret 0 (some d) ∧ pr = .ok d) := by
  unfold image_read_metadata
  by_cases h1 : ext < 0
  · rw [if_pos h1]; exact Or.inl ⟨ext, rfl, h1⟩
  · rw [if_neg h1]
    by_cases h2 : 0 < ext
    · rw [if_pos h2]; exact Or.inl ⟨-22, rfl, by omega⟩
    · rw [if_neg h2]
      cases pr with
      | error e => exact Or.inl ⟨e, rfl, hpr e rfl⟩
      | ok d => exact Or.inr ⟨d, rfl, rfl⟩

theorem image_read_metadata_ne_abort (ext : Int) (pr : Except Int ImageDeps) :
    image_read_metadata ext pr ≠ .abort := by
  unfold image_read_metadata
  by_cases h1 : ext < 0
  · simp [h1]
  · by_cases h2 : 0 < ext
    · simp [h1, h2]
    · simp only [if_neg h1, if_neg h2]
      cases pr <;> simp

theorem buildLocal_success (extO : Str → Int) (parO : Str → Except Int ImageDeps)
    (hpar : ∀ nm e, parO nm = .error e → e < 0) :
    ∀ (l : List Str) (v : Option (List ImageEntry)),
      buildLocal extO parO l = .ret 0 v →
      ∃ es, v = some es ∧
        List.Forall₂ (fun nm (en : ImageEntry) =>
            en.name = normalize_name nm ∧ en.is_local = true ∧
            ∃ d, parO nm = .ok d ∧ en.deps = some d) l es := by
  intro l
  induction l with
  | nil =>
    intro v h
    rw [buildLocal] at h
    injection h with h1 h2
    exact ⟨[], h2.symm, List.Forall₂.nil⟩
  | cons nm rest ih =>
    intro v h
    rw [buildLocal] at h
    rcases image_read_metadata_cases (extO nm) (parO nm) (hpar nm) with
      ⟨c, hc, hneg⟩ | ⟨d, hd, hok⟩
    · rw [hc] at h
      simp only [if_pos hneg] at h
      injection h with h1 h2
      omega
    · rw [hd] at h
      simp only [if_neg (show ¬ (0 : Int) < 0 by omega)] at h
      cases hb : buildLocal extO parO rest with
      | abort => rw [hb] at h; cases h
      | ret r2 v2 =>
        rw [hb] at h
        cases v2 with
        | some es =>
          injection h with h1 h2
          subst h1
          rcases ih (some es) hb with ⟨es2, hv2, hf⟩
          injection hv2 with hes
          subst hes
          exact ⟨_, h2.symm, List.Forall₂.cons ⟨rfl, rfl, d, hok, rfl⟩ hf⟩
        | none =>
          injection h with h1 h2
          subst h1
          rcases ih none hb with ⟨es2, hv2, _⟩
          cases hv2

theorem buildLocal_failure (extO : Str → Int) (parO : Str → Except Int ImageDeps) :
    ∀ (l : List Str) (r : Int) (v : Option (List ImageEntry)),
      buildLocal extO parO l = .ret r v → r ≠ 0 → v = none := by
  intro l
  induction l with
  | nil =>
    intro r v h hr
    rw [buildLocal] at h
    injection h with h1 h2
    exact absurd h1.symm hr
  | cons nm rest ih =>
    intro r v h hr
    rw [buildLocal] at h
    cases hm : image_read_metadata (extO nm) (parO nm) with
    | abort => rw [hm] at h; cases h
    | ret r1 v1 =>
      rw [hm] at h
      by_cases h1 : r1 < 0
      · simp only [if_pos h1] at h
        injection h with ha hb
        exact hb.symm
      · simp only [if_neg h1] at h
        cases hb2 : buildLocal extO parO rest with
        | abort => rw [hb2] at h; cases h
        | ret r2 v2 =>
          rw [hb2] at h
          cases v2 with
          | some es =>
            injection h with ha hb
            have := ih r2 (some es) hb2 (by omega)
            cases this
          | none =>
            injection h with ha hb
            exact hb.symm

theorem buildLocal_no_abort (extO : Str → Int) (parO : Str → Except Int ImageDeps) :
    ∀ l : List Str, buildLocal extO parO l ≠ .abort := by
  intro l
  induction l with
  | nil => intro h; rw [buildLocal] at h; cases h
  | cons nm rest ih =>
    intro h
    rw [buildLocal] at h
    cases hm : image_read_metadata (extO nm) (parO nm) with
    | abort => exact image_read_metadata_ne_abort _ _ hm
    | ret r1 v1 =>
      rw [hm] at h
      by_cases h1 : r1 < 0
      · simp only [if_pos h1] at h; cases h
      · simp only [if_neg h1] at h
        cases hb : buildLocal extO parO rest with
        | abort => exact ih hb
        | ret r2 v2 =>
          rw [hb] at h
          cases v2 with
          | some es => cases h
          | none => cases h

theorem image_json_ok (dl : Int) (doc : JVal) :
    ∀ (r : Int) (v : Option ImageDeps),
      image_json_from_url dl doc = .ret r v → ¬ r < 0 →
      ∃ d, v = some d ∧ r = 0 := by
  intro r v h hr
  unfold image_json_from_url at h
  by_cases hdl : dl < 0
  · rw [if_pos hdl] at h; injection h with h1 h2; omega
  · rw [if_neg hdl] at h
    rcases hl : load_image_json doc with ⟨r0, images⟩
    rw [hl] at h
    simp only at h
    by_cases h0 : r0 < 0
    · rw [if_pos h0] at h; injection h with h1 h2; omega
    · rw [if_neg h0] at h
      cases images with
      | none => injection h with h1 h2; omega
      | some slots =>
        cases slots with
        | nil => injection h with h1 h2; omega
        | cons s0 tl =>
          cases s0 with
          | none => injection h with h1 h2; omega
          | some d =>
            cases tl with
            | nil => injection h with h1 h2; exact ⟨d, h2.symm, h1.symm⟩
            | cons s1 tl1 =>
              cases s1 with
              | none => injection h with h1 h2; exact ⟨d, h2.symm, h1.symm⟩
              | some d2 => cases h

theorem buildRemote_entries (dlO : Str → Int) (docO : Str → JVal) :
    ∀ (l : List Str) (v : Option (List ImageEntry)),
      buildRemote dlO docO l = .ret 0 v →
      ∀ en ∈ v.getD [], en.is_remote = true ∧ ∃ d, en.deps = some d := by
  intro l
  induction l with
  | nil =>
    intro v h en hen
    rw [buildRemote] at h
    injection h with h1 h2
    rw [← h2] at hen
    simp at hen
  | cons nm rest ih =>
    intro v h en hen
    rw [buildRemote] at h
    cases hj : image_json_from_url (dlO nm) (docO nm) with
    | abort => rw [hj] at h; cases h
    | ret r1 v1 =>
      rw [hj] at h
      by_cases h1 : r1 < 0
      · simp only [if_pos h1] at h
        injection h with ha hb
        omega
      · simp only [if_neg h1] at h
        cases hb : buildRemote dlO docO rest with
        | abort => rw [hb] at h; cases h
        | ret r2 v2 =>
          rw [hb] at h
          cases v2 with
          | some es =>
            injection h with ha hc
            subst ha
            rw [← hc] at hen
            rcases List.mem_cons.mp hen with he | he
            · subst he
              rcases image_json_ok (dlO nm) (docO nm) r1 v1 hj h1 with ⟨d, hv1, _⟩
              exact ⟨rfl, d, hv1⟩
            · exact ih (some es) hb en he
          | none =>
            injection h with ha hc
            rw [← hc] at hen
            simp at hen

/-- C5 counterexample: a store whose only image file is named .raw (which
the .raw/.img filter accepts) produces, with successful extraction and
parse, a successful call whose single returned entry has an EMPTY name: the
first dot-strip of the normalizer consumes the whole filename. -/
theorem local_metadata_empty_name_counterexample :
    image_local_metadata (.ok [⟨".raw".data, none⟩]) (fun _ => 0)
        (fun _ => .ok (sampleDeps "1")) =
      .ret 0 (some [{ name := []
                      deps := some (sampleDeps "1")
                      is_local := true
                      is_remote := false
                      installed := false
                      compatible := false }]) := by
  decide

/-- C5 amended: with collaborators that report failures with negative codes,
a successful (status 0) image_local_metadata returns entries corresponding
one-to-one and in order to the discovered filenames, each with is_local set,
name equal to the normalized filename (possibly empty, e.g. for ".raw"),
and deps populated (non-null) from the successful parse; any non-zero
return carries no list (all-or-nothing, no partial result); the call never
aborts the process; and a successful image_remote_metadata likewise returns
only entries with is_remote set and non-null deps. -/
theorem local_metadata_roundtrip (dir : List DirEnt) (extO : Str → Int)
    (parO : Str → Except Int ImageDeps)
    (hpar : ∀ nm e, parO nm = .error e → e < 0) :
    (∀ v, image_local_metadata (.ok dir) extO parO = .ret 0 v →
        List.Forall₂ (fun nm (en : ImageEntry) =>
            en.name = normalize_name nm ∧ en.is_local = true ∧
            ∃ d, parO nm = .ok d ∧ en.deps = some d)
          (discover_images dir) (v.getD [])) ∧
    (∀ r v, image_local_metadata (.ok dir) extO parO = .ret r v → r ≠ 0 →
        v = none) ∧
    image_local_metadata (.ok dir) extO parO ≠ .abort ∧
    (∀ (dl : Int) (lines : List Str) (dlO : Str → Int) (docO : Str → JVal) v,
        image_remote_metadata dl lines dlO docO = some (.ret 0 v) →
        ∀ en ∈ v.getD [], en.is_remote = true ∧ ∃ d, en.deps = some d) := by
  refine ⟨?_, ?_, ?_, ?_⟩
  · intro v h
    unfold image_local_metadata at h
    by_cases he : (discover_images dir).isEmpty
    · simp only [if_pos he] at h
      injection h with h1 h2
      rw [← h2, List.isEmpty_iff.mp he]
      exact List.Forall₂.nil
    · simp only [if_neg he] at h
      rcases buildLocal_success extO parO hpar (discover_images dir) v h with
        ⟨es, hv, hf⟩
      rw [hv]
      exact hf
  · intro r v h hr
    unfold image_local_metadata at h
    by_cases he : (discover_images dir).isEmpty
    · simp only [if_pos he] at h
      injection h with h1 h2
      exact absurd h1.symm hr
    · simp only [if_neg he] at h
      exact buildLocal_failure extO parO (discover_images dir) r v h hr
  · unfold image_local_metadata
    by_cases he : (discover_images dir).isEmpty
    · simp [he]
    · simp only [if_neg he]
      exact buildLocal_no_abort extO parO (discover_images dir)
  · intro dl lines dlO docO v h
    unfold image_remote_metadata at h
    cases hio : image_list_from_url dl lines with
    | none => rw [hio] at h; cases h
    | some p =>
      rcases p with ⟨r, out⟩
      rw [hio] at h
      simp only at h
      by_cases hr : r < 0
      · simp only [if_pos hr] at h
        injection h with h1
        injection h1 with ha hb
        omega
      · simp only [if_neg hr] at h
        by_cases hne : (out.getD []).isEmpty
        · simp only [if_pos hne] at h
          injection h with h1
          injection h1 with ha hb
          rw [← hb]
          simp
        · simp only [if_neg hne] at h
          injection h with h1
          exact buildRemote_entries dlO docO (out.getD []) v h1

/-- Witness for local_metadata_roundtrip on the two-image sample store:
both returned entries carry the normalized name debug-tools, the local
flag, and the deps record of their successful parse. -/
theorem local_metadata_roundtrip_witness :
    List.Forall₂ (fun nm (en : ImageEntry) =>
        en.name = normalize_name nm ∧ en.is_local = true ∧
        ∃ d, sampleParse nm = .ok d ∧ en.deps = some d)
      (discover_images sampleDir)
      ((some [{ name := "debug-tools".data
                deps := some (sampleDeps "10")
                is_local := true
                is_remote := false
                installed := false
                compatible := false },
              { name := "debug-tools".data
                deps := some (sampleDeps "2")
                is_local := true
                is_remote := false
                installed := false
                compatible := false }] : Option (List ImageEntry)).getD []) := by
  have hp : ∀ nm e, sampleParse nm = .error e → e < 0 := by
    intro nm e h
    unfold sampleParse at h
    by_cases hc : nm = "debug-tools-10.x86-64.raw".data
    · rw [if_pos hc] at h; cases h
    · rw [if_neg hc] at h; cases h
  exact (local_metadata_roundtrip sampleDir (fun _ => 0) sampleParse hp).1 _
    (by decide)
